import Mathlib

/-!
Verification development for the rasterfaster reprojection engine
(src/project_algos.hpp, src/project.cpp).

Doubles are modelled as an idealized IEEE value: a finite real number,
a signed infinity, or NaN.  Real arithmetic carries no rounding, but the
special values propagate as in IEEE 754 (division by zero produces an
infinity or NaN, asin of an argument of magnitude above one produces NaN,
every comparison against NaN is false).  Grids are modelled as index
functions from (row, col) to the stored value; the source grid is reached
only through the interpolator, which is kept abstract as a function of the
fractional sample coordinates.
-/

open scoped Classical

noncomputable section

/-- An idealized IEEE double: a finite real, one of the two infinities, or NaN. -/
inductive FVal where
  | fin : ℝ → FVal
  | pinf : FVal
  | ninf : FVal
  | nan : FVal

namespace FVal

/-- IEEE addition on idealized doubles. -/
def add : FVal → FVal → FVal
  | nan, _ => nan
  | _, nan => nan
  | fin a, fin b => fin (a + b)
  | fin _, pinf => pinf
  | fin _, ninf => ninf
  | pinf, fin _ => pinf
  | ninf, fin _ => ninf
  | pinf, pinf => pinf
  | ninf, ninf => ninf
  | pinf, ninf => nan
  | ninf, pinf => nan

/-- IEEE subtraction on idealized doubles. -/
def sub : FVal → FVal → FVal
  | nan, _ => nan
  | _, nan => nan
  | fin a, fin b => fin (a - b)
  | fin _, pinf => ninf
  | fin _, ninf => pinf
  | pinf, fin _ => pinf
  | ninf, fin _ => ninf
  | pinf, pinf => nan
  | ninf, ninf => nan
  | pinf, ninf => pinf
  | ninf, pinf => ninf

/-- IEEE multiplication on idealized doubles (infinity times zero is NaN). -/
def mul : FVal → FVal → FVal
  | nan, _ => nan
  | _, nan => nan
  | fin a, fin b => fin (a * b)
  | fin a, pinf => if 0 < a then pinf else if a < 0 then ninf else nan
  | fin a, ninf => if 0 < a then ninf else if a < 0 then pinf else nan
  | pinf, fin b => if 0 < b then pinf else if b < 0 then ninf else nan
  | ninf, fin b => if 0 < b then ninf else if b < 0 then pinf else nan
  | pinf, pinf => pinf
  | pinf, ninf => ninf
  | ninf, pinf => ninf
  | ninf, ninf => pinf

/-- IEEE division on idealized doubles.  A nonzero finite value divided by
zero is a signed infinity, zero by zero is NaN; the model has no negative
zero, so a zero divisor counts as positive. -/
def div : FVal → FVal → FVal
  | nan, _ => nan
  | _, nan => nan
  | fin a, fin b =>
      if b = 0 then (if a = 0 then nan else if 0 < a then pinf else ninf)
      else fin (a / b)
  | fin _, pinf => fin 0
  | fin _, ninf => fin 0
  | pinf, fin b => if 0 ≤ b then pinf else ninf
  | ninf, fin b => if 0 ≤ b then ninf else pinf
  | pinf, pinf => nan
  | pinf, ninf => nan
  | ninf, pinf => nan
  | ninf, ninf => nan

/-- IEEE sine: finite on finite arguments, NaN on infinities and NaN. -/
def sinF : FVal → FVal
  | fin a => fin (Real.sin a)
  | _ => nan

/-- IEEE cosine: finite on finite arguments, NaN on infinities and NaN. -/
def cosF : FVal → FVal
  | fin a => fin (Real.cos a)
  | _ => nan

/-- IEEE hyperbolic sine: preserves infinities, NaN on NaN. -/
def sinhF : FVal → FVal
  | fin a => fin (Real.sinh a)
  | pinf => pinf
  | ninf => ninf
  | nan => nan

/-- IEEE arctangent: finite everywhere, with limits at the infinities. -/
def atanF : FVal → FVal
  | fin a => fin (Real.arctan a)
  | pinf => fin (Real.pi / 2)
  | ninf => fin (-(Real.pi / 2))
  | nan => nan

/-- IEEE arcsine: NaN whenever the argument magnitude exceeds one. -/
def asinF : FVal → FVal
  | fin a => if |a| ≤ 1 then fin (Real.arcsin a) else nan
  | _ => nan

/-- The real carried by a finite value; junk on the special values. -/
def toReal : FVal → ℝ
  | fin a => a
  | _ => 0

/-- Whether the value is finite. -/
def isFin : FVal → Prop
  | fin _ => True
  | _ => False

/-- The C comparison v >= 0 (false on NaN, true on positive infinity). -/
def geZ : FVal → Prop
  | fin a => 0 ≤ a
  | pinf => True
  | ninf => False
  | nan => False

/-- The C comparison v < 1 (false on NaN, true on negative infinity). -/
def ltOne : FVal → Prop
  | fin a => a < 1
  | pinf => False
  | ninf => True
  | nan => False

end FVal

/-- The conjunction srcXNorm >= 0 && srcXNorm < 1 && srcYNorm >= 0 && srcYNorm < 1
from ProjectionWorker. -/
def inBounds (a b : FVal) : Prop := a.geZ ∧ a.ltOne ∧ b.geZ ∧ b.ltOne

/-- The constant PI used by the source (Rcpp exposes the usual pi). -/
def PI : ℝ := Real.pi

/-- WebMercatorProjection::reverse from project_algos.hpp: lng = x*360 - 180,
lat = atan(sinh(PI*(1 - 2*y))) * 180 / PI, computed on idealized doubles. -/
def WebMercatorProjection.reverse (x y : FVal) : FVal × FVal :=
  (FVal.sub (FVal.mul x (FVal.fin 360)) (FVal.fin 180),
   FVal.div
     (FVal.mul
       (FVal.atanF (FVal.sinhF
         (FVal.mul (FVal.fin PI) (FVal.sub (FVal.fin 1) (FVal.mul (FVal.fin 2) y)))))
       (FVal.fin 180))
     (FVal.fin PI))

/-- MollweideProjection::reverse from project_algos.hpp, with R = 1 and
lambda0 = 0: rescale x and y by 4*sqrt 2 minus 2*sqrt 2, take
theta = asin(y1 / sqrt 2), phi = asin((2*theta + sin(2*theta)) / PI),
lambda = lambda0 + (PI*x1) / (2*sqrt 2*cos theta), and return
(lambda*180/PI, phi*(-180)/PI), all on idealized doubles. -/
def MollweideProjection.reverse (x y : FVal) : FVal × FVal :=
  let r_sqrt2 : ℝ := Real.sqrt 2
  let x1 := FVal.sub (FVal.mul x (FVal.fin (4 * r_sqrt2))) (FVal.fin (2 * r_sqrt2))
  let y1 := FVal.sub (FVal.mul y (FVal.fin (4 * r_sqrt2))) (FVal.fin (2 * r_sqrt2))
  let theta := FVal.asinF (FVal.div y1 (FVal.fin r_sqrt2))
  let phi := FVal.asinF (FVal.div
    (FVal.add (FVal.mul (FVal.fin 2) theta) (FVal.sinF (FVal.mul (FVal.fin 2) theta)))
    (FVal.fin PI))
  let lambda := FVal.add (FVal.fin 0)
    (FVal.div (FVal.mul (FVal.fin PI) x1)
      (FVal.mul (FVal.fin (2 * r_sqrt2)) (FVal.cosF theta)))
  (FVal.div (FVal.mul lambda (FVal.fin 180)) (FVal.fin PI),
   FVal.div (FVal.mul phi (FVal.fin (-180))) (FVal.fin PI))

/-- Element types a Grid may be instantiated at. -/
inductive ElemType where
  | float : ElemType
  | double : ElemType
deriving DecidableEq

/-- std numeric_limits lowest: the most negative finite representable value
of the element type (as an exact real). -/
def lowest : ElemType → ℝ
  | ElemType.double => -((2 ^ 53 - 1) * 2 ^ 971)
  | ElemType.float => -((2 ^ 24 - 1) * 2 ^ 104)

/-- The no-data value the worker writes out of bounds:
the negation of std numeric_limits of double max, as an exact real. -/
def sentinel : ℝ := -((2 ^ 53 - 1) * 2 ^ 971)

/-- The value assigned in the out-of-bounds branch of the worker templated at
element type T.  The source expression is the negation of
std numeric_limits of double max and does not mention T. -/
def sentinelOf (_t : ElemType) : ℝ := sentinel

/-- The two normalized source coordinates (srcXNorm, srcYNorm) the worker
computes for target column x and row y: xNorm = (x + xOrigin)/xTotal,
yNorm = (y + yOrigin)/yTotal, (lng, lat) = reverse(xNorm, yNorm),
srcXNorm = (lng - lng1)/(lng2 - lng1), srcYNorm = 1 - (lat - lat1)/(lat2 - lat1). -/
def srcNorms (reverse : FVal → FVal → FVal × FVal)
    (lat1 lat2 lng1 lng2 : ℝ) (xOrigin xTotal yOrigin yTotal : ℤ)
    (x y : ℕ) : FVal × FVal :=
  let xNorm := FVal.div (FVal.fin ((x : ℝ) + (xOrigin : ℝ))) (FVal.fin (xTotal : ℝ))
  let yNorm := FVal.div (FVal.fin ((y : ℝ) + (yOrigin : ℝ))) (FVal.fin (yTotal : ℝ))
  let ll := reverse xNorm yNorm
  (FVal.div (FVal.sub ll.1 (FVal.fin lng1)) (FVal.fin (lng2 - lng1)),
   FVal.sub (FVal.fin 1)
     (FVal.div (FVal.sub ll.2 (FVal.fin lat1)) (FVal.fin (lat2 - lat1))))

/-- The value one iteration of ProjectionWorker writes for target column x and
row y: the interpolated sample at (srcXNorm * srcCols, srcYNorm * srcRows)
when the bounds test passes, the sentinel otherwise. -/
def pixelVal (reverse : FVal → FVal → FVal × FVal) (interp : ℝ → ℝ → ℝ)
    (srcRows srcCols : ℕ) (lat1 lat2 lng1 lng2 : ℝ)
    (xOrigin xTotal yOrigin yTotal : ℤ) (x y : ℕ) : ℝ :=
  let sn := srcNorms reverse lat1 lat2 lng1 lng2 xOrigin xTotal yOrigin yTotal x y
  if inBounds sn.1 sn.2 then
    interp (sn.1.toReal * (srcCols : ℝ)) (sn.2.toReal * (srcRows : ℝ))
  else sentinel

/-- One loop iteration of ProjectionWorker at flat index i: decompose i as
column i / tgtRows and row i % tgtRows, and write the pixel value to that
single cell of the target, leaving every other cell unchanged. -/
def ProjectionWorker.step (reverse : FVal → FVal → FVal × FVal) (interp : ℝ → ℝ → ℝ)
    (srcRows srcCols : ℕ) (lat1 lat2 lng1 lng2 : ℝ)
    (xOrigin xTotal yOrigin yTotal : ℤ) (tgtRows : ℕ)
    (i : ℕ) (tgt : ℕ → ℕ → ℝ) : ℕ → ℕ → ℝ :=
  fun r c =>
    if r = i % tgtRows ∧ c = i / tgtRows then
      pixelVal reverse interp srcRows srcCols lat1 lat2 lng1 lng2
        xOrigin xTotal yOrigin yTotal (i / tgtRows) (i % tgtRows)
    else tgt r c

/-- Executing the worker over the flat index range from 0 up to n, in order.
The parallel driver runs the same iterations partitioned into chunks; since
each iteration writes a distinct cell, the sequential composition gives the
same target contents. -/
def ProjectionWorker.run (reverse : FVal → FVal → FVal × FVal) (interp : ℝ → ℝ → ℝ)
    (srcRows srcCols : ℕ) (lat1 lat2 lng1 lng2 : ℝ)
    (xOrigin xTotal yOrigin yTotal : ℤ) (tgtRows : ℕ) :
    ℕ → (ℕ → ℕ → ℝ) → (ℕ → ℕ → ℝ)
  | 0, tgt => tgt
  | n + 1, tgt =>
      ProjectionWorker.step reverse interp srcRows srcCols lat1 lat2 lng1 lng2
        xOrigin xTotal yOrigin yTotal tgtRows n
        (ProjectionWorker.run reverse interp srcRows srcCols lat1 lat2 lng1 lng2
          xOrigin xTotal yOrigin yTotal tgtRows n tgt)

/-- project from project_algos.hpp: run the worker over the whole flat index
range of the target, of size tgtRows * tgtCols. -/
def project (reverse : FVal → FVal → FVal × FVal) (interp : ℝ → ℝ → ℝ)
    (srcRows srcCols : ℕ) (lat1 lat2 lng1 lng2 : ℝ)
    (tgtRows tgtCols : ℕ) (xOrigin xTotal yOrigin yTotal : ℤ)
    (tgt : ℕ → ℕ → ℝ) : ℕ → ℕ → ℝ :=
  ProjectionWorker.run reverse interp srcRows srcCols lat1 lat2 lng1 lng2
    xOrigin xTotal yOrigin yTotal tgtRows (tgtRows * tgtCols) tgt

/-- The two projection strategies getProjection can produce. -/
inductive ProjKind where
  | webmercator : ProjKind
  | mollweide : ProjKind
deriving DecidableEq

/-- getProjection from project_algos.hpp: epsg:3857 names WebMercator,
mollweide names Mollweide, anything else yields no instance. -/
def getProjection (name : String) : Option ProjKind :=
  if name = "epsg:3857" then some ProjKind.webmercator
  else if name = "mollweide" then some ProjKind.mollweide
  else none

end

namespace FVal

@[simp] lemma add_fin_fin (a b : ℝ) : add (fin a) (fin b) = fin (a + b) := rfl

@[simp] lemma sub_fin_fin (a b : ℝ) : sub (fin a) (fin b) = fin (a - b) := rfl

@[simp] lemma mul_fin_fin (a b : ℝ) : mul (fin a) (fin b) = fin (a * b) := rfl

@[simp] lemma add_nan_left (v : FVal) : add nan v = nan := by cases v <;> rfl

@[simp] lemma add_nan_right (v : FVal) : add v nan = nan := by cases v <;> rfl

@[simp] lemma sub_nan_left (v : FVal) : sub nan v = nan := by cases v <;> rfl

@[simp] lemma sub_nan_right (v : FVal) : sub v nan = nan := by cases v <;> rfl

@[simp] lemma mul_nan_left (v : FVal) : mul nan v = nan := by cases v <;> rfl

@[simp] lemma mul_nan_right (v : FVal) : mul v nan = nan := by cases v <;> rfl

@[simp] lemma div_nan_left (v : FVal) : div nan v = nan := by cases v <;> rfl

@[simp] lemma div_nan_right (v : FVal) : div v nan = nan := by cases v <;> rfl

@[simp] lemma sinF_fin (a : ℝ) : sinF (fin a) = fin (Real.sin a) := rfl

@[simp] lemma cosF_fin (a : ℝ) : cosF (fin a) = fin (Real.cos a) := rfl

@[simp] lemma sinhF_fin (a : ℝ) : sinhF (fin a) = fin (Real.sinh a) := rfl

@[simp] lemma atanF_fin (a : ℝ) : atanF (fin a) = fin (Real.arctan a) := rfl

@[simp] lemma sinF_nan : sinF nan = nan := rfl

@[simp] lemma cosF_nan : cosF nan = nan := rfl

@[simp] lemma asinF_nan : asinF nan = nan := rfl

@[simp] lemma toReal_fin (a : ℝ) : toReal (fin a) = a := rfl

lemma div_fin_fin {b : ℝ} (a : ℝ) (hb : b ≠ 0) : div (fin a) (fin b) = fin (a / b) := by
  simp [div, hb]

lemma asinF_fin_of_le {a : ℝ} (h : |a| ≤ 1) : asinF (fin a) = fin (Real.arcsin a) := by
  simp [asinF, h]

lemma asinF_fin_of_gt {a : ℝ} (h : 1 < |a|) : asinF (fin a) = nan := by
  simp [asinF, not_le.mpr h]

@[simp] lemma isFin_fin (a : ℝ) : isFin (fin a) := trivial

@[simp] lemma not_isFin_pinf : ¬ isFin pinf := fun h => h

@[simp] lemma not_isFin_ninf : ¬ isFin ninf := fun h => h

@[simp] lemma not_isFin_nan : ¬ isFin nan := fun h => h

/-- Division of any value by an exact zero never yields a finite value. -/
lemma not_isFin_div_fin_zero (v : FVal) : ¬ isFin (div v (fin 0)) := by
  cases v with
  | fin a =>
      by_cases h0 : a = 0
      · simp [div, h0, isFin]
      · by_cases hpos : 0 < a
        · simp [div, h0, hpos, isFin]
        · simp [div, h0, hpos, isFin]
  | pinf => simp [div, isFin]
  | ninf => simp [div, isFin]
  | nan => simp [div, isFin]

end FVal

@[simp] lemma inBounds_fin_fin (a b : ℝ) :
    inBounds (FVal.fin a) (FVal.fin b) ↔ 0 ≤ a ∧ a < 1 ∧ 0 ≤ b ∧ b < 1 := Iff.rfl

/-- A non-finite first coordinate fails the bounds test. -/
lemma not_inBounds_of_left {a : FVal} (h : ¬ a.isFin) (b : FVal) : ¬ inBounds a b := by
  cases a with
  | fin x => exact absurd (FVal.isFin_fin x) h
  | pinf => exact fun hb => hb.2.1
  | ninf => exact fun hb => hb.1
  | nan => exact fun hb => hb.1

/-- A non-finite second coordinate fails the bounds test. -/
lemma not_inBounds_of_right {b : FVal} (h : ¬ b.isFin) (a : FVal) : ¬ inBounds a b := by
  cases b with
  | fin x => exact absurd (FVal.isFin_fin x) h
  | pinf => exact fun hb => hb.2.2.2
  | ninf => exact fun hb => hb.2.2.1
  | nan => exact fun hb => hb.2.2.1

/-- Contents of a cell after running the worker over the indices below n:
the cell (r, c) holds its pixel value exactly when its own flat index
c * tgtRows + r has already been processed, and is untouched otherwise. -/
lemma ProjectionWorker.run_apply (reverse : FVal → FVal → FVal × FVal)
    (interp : ℝ → ℝ → ℝ) (srcRows srcCols : ℕ) (lat1 lat2 lng1 lng2 : ℝ)
    (xOrigin xTotal yOrigin yTotal : ℤ) (tgtRows : ℕ) (hrows : 0 < tgtRows)
    (n : ℕ) (tgt : ℕ → ℕ → ℝ) (r c : ℕ) :
    ProjectionWorker.run reverse interp srcRows srcCols lat1 lat2 lng1 lng2
        xOrigin xTotal yOrigin yTotal tgtRows n tgt r c =
      if r < tgtRows ∧ c * tgtRows + r < n then
        pixelVal reverse interp srcRows srcCols lat1 lat2 lng1 lng2
          xOrigin xTotal yOrigin yTotal c r
      else tgt r c := by
  induction n with
  | zero => simp [ProjectionWorker.run]
  | succ n ih =>
      rw [ProjectionWorker.run, ProjectionWorker.step]
      by_cases hrc : r = n % tgtRows ∧ c = n / tgtRows
      · obtain ⟨hr, hc⟩ := hrc
        have hmod : r < tgtRows := hr ▸ Nat.mod_lt _ hrows
        have hidx : c * tgtRows + r = n := by
          rw [hr, hc, Nat.mul_comm]
          exact Nat.div_add_mod n tgtRows
        rw [if_pos ⟨hr, hc⟩, if_pos ⟨hmod, by omega⟩, ← hr, ← hc]
      · rw [if_neg hrc, ih]
        have hne : ¬ (r < tgtRows ∧ c * tgtRows + r = n) := by
          rintro ⟨hrlt, hidx⟩
          apply hrc
          constructor
          · rw [← hidx, Nat.add_comm, Nat.add_mul_mod_self_right, Nat.mod_eq_of_lt hrlt]
          · rw [← hidx, Nat.add_comm, Nat.add_mul_div_right _ _ hrows,
              Nat.div_eq_of_lt hrlt, Nat.zero_add]
        by_cases hcond : r < tgtRows ∧ c * tgtRows + r < n
        · rw [if_pos hcond, if_pos ⟨hcond.1, by omega⟩]
        · have : ¬ (r < tgtRows ∧ c * tgtRows + r < n + 1) := by
            rintro ⟨h1, h2⟩
            rcases Nat.lt_succ_iff_lt_or_eq.mp h2 with h | h
            · exact hcond ⟨h1, h⟩
            · exact hne ⟨h1, h⟩
          rw [if_neg hcond, if_neg this]

/-- Contents of an in-range cell after a full project pass: its pixel value. -/
lemma project_apply (reverse : FVal → FVal → FVal × FVal)
    (interp : ℝ → ℝ → ℝ) (srcRows srcCols : ℕ) (lat1 lat2 lng1 lng2 : ℝ)
    (tgtRows tgtCols : ℕ) (xOrigin xTotal yOrigin yTotal : ℤ)
    (tgt : ℕ → ℕ → ℝ) (r c : ℕ) (hr : r < tgtRows) (hc : c < tgtCols) :
    project reverse interp srcRows srcCols lat1 lat2 lng1 lng2
        tgtRows tgtCols xOrigin xTotal yOrigin yTotal tgt r c =
      pixelVal reverse interp srcRows srcCols lat1 lat2 lng1 lng2
        xOrigin xTotal yOrigin yTotal c r := by
  have hrows : 0 < tgtRows := Nat.pos_of_ne_zero (by omega)
  have hidx : c * tgtRows + r < tgtRows * tgtCols := by
    have h1 : c * tgtRows + r < (c + 1) * tgtRows := by
      rw [Nat.succ_mul]
      omega
    have h2 : (c + 1) * tgtRows ≤ tgtCols * tgtRows :=
      Nat.mul_le_mul_right _ hc
    rw [Nat.mul_comm tgtRows tgtCols]
    omega
  rw [project, ProjectionWorker.run_apply _ _ _ _ _ _ _ _ _ _ _ _ _ hrows,
    if_pos ⟨hr, hidx⟩]

/-- The pixel value depends on column, row and origins only through the
global position (x + xOrigin, y + yOrigin). -/
lemma pixelVal_congr (reverse : FVal → FVal → FVal × FVal)
    (interp : ℝ → ℝ → ℝ) (srcRows srcCols : ℕ) (lat1 lat2 lng1 lng2 : ℝ)
    (xO xT yO yT xO2 yO2 : ℤ) (x y x2 y2 : ℕ)
    (hx : (x : ℝ) + (xO : ℝ) = (x2 : ℝ) + (xO2 : ℝ))
    (hy : (y : ℝ) + (yO : ℝ) = (y2 : ℝ) + (yO2 : ℝ)) :
    pixelVal reverse interp srcRows srcCols lat1 lat2 lng1 lng2 xO xT yO yT x y =
      pixelVal reverse interp srcRows srcCols lat1 lat2 lng1 lng2 xO2 xT yO2 yT x2 y2 := by
  unfold pixelVal srcNorms
  rw [hx, hy]

@[simp] lemma not_inBounds_nan_left (b : FVal) : ¬ inBounds FVal.nan b := fun h => h.1

@[simp] lemma not_inBounds_nan_right (a : FVal) : ¬ inBounds a FVal.nan := fun h => h.2.2.1

/-- C1.  For every target pixel (row r, col c) of the target grid, a full
project pass computes xNorm = (c + xOrigin)/xTotal, yNorm = (r + yOrigin)/yTotal,
reverse-projects to (lng, lat), maps srcXNorm = (lng - lng1)/(lng2 - lng1) and
srcYNorm = 1 - (lat - lat1)/(lat2 - lat1), and writes the interpolated sample
at (srcXNorm * srcCols, srcYNorm * srcRows) when both normalized coordinates
pass the bounds test srcXNorm in [0,1) and srcYNorm in [0,1), and the sentinel
value otherwise. -/
theorem C1_worker_formula (reverse : FVal → FVal → FVal × FVal)
    (interp : ℝ → ℝ → ℝ) (srcRows srcCols : ℕ) (lat1 lat2 lng1 lng2 : ℝ)
    (tgtRows tgtCols : ℕ) (xO xT yO yT : ℤ) (tgt : ℕ → ℕ → ℝ) (r c : ℕ)
    (hr : r < tgtRows) (hc : c < tgtCols) :
    project reverse interp srcRows srcCols lat1 lat2 lng1 lng2
        tgtRows tgtCols xO xT yO yT tgt r c =
      (let xNorm := FVal.div (FVal.fin ((c : ℝ) + (xO : ℝ))) (FVal.fin (xT : ℝ))
       let yNorm := FVal.div (FVal.fin ((r : ℝ) + (yO : ℝ))) (FVal.fin (yT : ℝ))
       let ll := reverse xNorm yNorm
       let srcXNorm := FVal.div (FVal.sub ll.1 (FVal.fin lng1)) (FVal.fin (lng2 - lng1))
       let srcYNorm := FVal.sub (FVal.fin 1)
         (FVal.div (FVal.sub ll.2 (FVal.fin lat1)) (FVal.fin (lat2 - lat1)))
       if inBounds srcXNorm srcYNorm then
         interp (srcXNorm.toReal * (srcCols : ℝ)) (srcYNorm.toReal * (srcRows : ℝ))
       else sentinel) := by
  rw [project_apply _ _ _ _ _ _ _ _ _ _ _ _ _ _ _ _ _ hr hc]
  rfl

/-- Witness for C1: with a projection that always reverse-projects to NaN,
the bounds test fails and the full pass writes the sentinel at cell (0, 0). -/
theorem C1_worker_formula_witness :
    project (fun _ _ => (FVal.nan, FVal.nan)) (fun _ _ => 0) 1 1 0 1 0 1
      1 1 0 1 0 1 (fun _ _ => 0) 0 0 = sentinel := by
  rw [C1_worker_formula (fun _ _ => (FVal.nan, FVal.nan)) (fun _ _ => 0) 1 1 0 1 0 1
    1 1 0 1 0 1 (fun _ _ => 0) 0 0 (by norm_num) (by norm_num)]
  simp

/-- C2, counterexample.  The value the worker writes out of bounds is the
negated double max regardless of the element type, which differs from the
most negative representable value of float. -/
theorem C2_sentinel_counterexample :
    sentinelOf ElemType.float ≠ lowest ElemType.float := by
  norm_num [sentinelOf, sentinel, lowest]

/-- C2, amended.  Whenever the bounds test fails, the worker writes the
negated double max, independently of the element type the worker is
instantiated at; this coincides with the most negative representable value
of the element type only for double. -/
theorem C2_sentinel_amended (t : ElemType) (reverse : FVal → FVal → FVal × FVal)
    (interp : ℝ → ℝ → ℝ) (srcRows srcCols : ℕ) (lat1 lat2 lng1 lng2 : ℝ)
    (xO xT yO yT : ℤ) (x y : ℕ)
    (h : ¬ inBounds (srcNorms reverse lat1 lat2 lng1 lng2 xO xT yO yT x y).1
      (srcNorms reverse lat1 lat2 lng1 lng2 xO xT yO yT x y).2) :
    pixelVal reverse interp srcRows srcCols lat1 lat2 lng1 lng2 xO xT yO yT x y
        = sentinelOf t ∧
      sentinelOf t = lowest ElemType.double ∧
      (t = ElemType.double → sentinelOf t = lowest t) := by
  refine ⟨?_, rfl, fun ht => by subst ht; rfl⟩
  rw [pixelVal, if_neg h]
  rfl

/-- Witness for C2 amended: a projection producing NaN makes the bounds test
fail, and the float-instantiated worker still writes the negated double max. -/
theorem C2_sentinel_amended_witness :
    pixelVal (fun _ _ => (FVal.nan, FVal.nan)) (fun _ _ => 0) 1 1 0 1 0 1
        0 1 0 1 0 0 = sentinelOf ElemType.float ∧
      sentinelOf ElemType.float = lowest ElemType.double ∧
      (ElemType.float = ElemType.double → sentinelOf ElemType.float = lowest ElemType.float) := by
  refine C2_sentinel_amended ElemType.float (fun _ _ => (FVal.nan, FVal.nan))
    (fun _ _ => 0) 1 1 0 1 0 1 0 1 0 1 0 0 ?_
  simp [srcNorms]

/-- C5.  In one project call over the full index range, every target cell is
written exactly once: each cell (r, c) is the image of a unique flat index,
every flat index lands on a valid cell, and one worker iteration changes only
its own cell, writing the pixel value there. -/
theorem C5_disjoint_writes (tgtRows tgtCols : ℕ) (h : 0 < tgtRows) :
    (∀ r c, r < tgtRows → c < tgtCols →
      ∃! i, i < tgtRows * tgtCols ∧ i % tgtRows = r ∧ i / tgtRows = c) ∧
    (∀ i, i < tgtRows * tgtCols → i % tgtRows < tgtRows ∧ i / tgtRows < tgtCols) ∧
    (∀ (reverse : FVal → FVal → FVal × FVal) (interp : ℝ → ℝ → ℝ)
      (srcRows srcCols : ℕ) (lat1 lat2 lng1 lng2 : ℝ) (xO xT yO yT : ℤ)
      (i : ℕ) (tgt : ℕ → ℕ → ℝ) (r c : ℕ),
      ¬ (r = i % tgtRows ∧ c = i / tgtRows) →
      ProjectionWorker.step reverse interp srcRows srcCols lat1 lat2 lng1 lng2
        xO xT yO yT tgtRows i tgt r c = tgt r c) ∧
    (∀ (reverse : FVal → FVal → FVal × FVal) (interp : ℝ → ℝ → ℝ)
      (srcRows srcCols : ℕ) (lat1 lat2 lng1 lng2 : ℝ) (xO xT yO yT : ℤ)
      (i : ℕ) (tgt : ℕ → ℕ → ℝ),
      ProjectionWorker.step reverse interp srcRows srcCols lat1 lat2 lng1 lng2
          xO xT yO yT tgtRows i tgt (i % tgtRows) (i / tgtRows) =
        pixelVal reverse interp srcRows srcCols lat1 lat2 lng1 lng2
          xO xT yO yT (i / tgtRows) (i % tgtRows)) := by
  refine ⟨?_, ?_, ?_, ?_⟩
  · intro r c hr hc
    refine ⟨c * tgtRows + r, ⟨?_, ?_, ?_⟩, ?_⟩
    · have h1 : c * tgtRows + r < (c + 1) * tgtRows := by
        rw [Nat.succ_mul]; omega
      have h2 : (c + 1) * tgtRows ≤ tgtCols * tgtRows := Nat.mul_le_mul_right _ hc
      rw [Nat.mul_comm tgtRows tgtCols]; omega
    · rw [Nat.add_comm, Nat.add_mul_mod_self_right, Nat.mod_eq_of_lt hr]
    · rw [Nat.add_comm, Nat.add_mul_div_right _ _ h, Nat.div_eq_of_lt hr, Nat.zero_add]
    · rintro j ⟨-, hmod, hdiv⟩
      have := Nat.div_add_mod j tgtRows
      rw [hmod, hdiv, Nat.mul_comm] at this
      omega
  · intro i hi
    refine ⟨Nat.mod_lt _ h, ?_⟩
    rw [Nat.div_lt_iff_lt_mul h, Nat.mul_comm tgtCols tgtRows]
    exact hi
  · intro reverse interp srcRows srcCols lat1 lat2 lng1 lng2 xO xT yO yT i tgt r c hne
    rw [ProjectionWorker.step, if_neg hne]
  · intro reverse interp srcRows srcCols lat1 lat2 lng1 lng2 xO xT yO yT i tgt
    rw [ProjectionWorker.step, if_pos ⟨rfl, rfl⟩]

/-- Witness for C5: in a 2-by-3 target, the cell (1, 2) is hit by a unique
flat index, and flat index 5 lands on a valid cell. -/
theorem C5_disjoint_writes_witness :
    (∃! i, i < 2 * 3 ∧ i % 2 = 1 ∧ i / 2 = 2) ∧ (5 % 2 < 2 ∧ 5 / 2 < 3) :=
  ⟨(C5_disjoint_writes 2 3 (by norm_num)).1 1 2 (by norm_num) (by norm_num),
   (C5_disjoint_writes 2 3 (by norm_num)).2.1 5 (by norm_num)⟩

/-- C6.  Reprojecting a full-width window in one call agrees pixel for pixel
with reprojecting it as two adjacent tiles partitioning the column range at k
with the x origin shifted accordingly; in general the pixel value depends only
on the global position (col + xOrigin, row + yOrigin) and the shared inputs. -/
theorem C6_tile_independence (reverse : FVal → FVal → FVal × FVal)
    (interp : ℝ → ℝ → ℝ) (srcRows srcCols : ℕ) (lat1 lat2 lng1 lng2 : ℝ)
    (xO xT yO yT : ℤ) (rows W k : ℕ) (tgt0 tgt1 tgt2 : ℕ → ℕ → ℝ) (r c : ℕ)
    (hr : r < rows) (hc : c < W) (hk : k ≤ W) :
    (project reverse interp srcRows srcCols lat1 lat2 lng1 lng2
        rows W xO xT yO yT tgt0 r c =
      if c < k then
        project reverse interp srcRows srcCols lat1 lat2 lng1 lng2
          rows k xO xT yO yT tgt1 r c
      else
        project reverse interp srcRows srcCols lat1 lat2 lng1 lng2
          rows (W - k) (xO + (k : ℤ)) xT yO yT tgt2 r (c - k)) ∧
    (∀ (x y x2 y2 : ℕ) (xO2 yO2 : ℤ),
      (x : ℝ) + (xO : ℝ) = (x2 : ℝ) + (xO2 : ℝ) →
      (y : ℝ) + (yO : ℝ) = (y2 : ℝ) + (yO2 : ℝ) →
      pixelVal reverse interp srcRows srcCols lat1 lat2 lng1 lng2 xO xT yO yT x y =
        pixelVal reverse interp srcRows srcCols lat1 lat2 lng1 lng2 xO2 xT yO2 yT x2 y2) := by
  constructor
  · rw [project_apply _ _ _ _ _ _ _ _ _ _ _ _ _ _ _ _ _ hr hc]
    by_cases hck : c < k
    · rw [if_pos hck, project_apply _ _ _ _ _ _ _ _ _ _ _ _ _ _ _ _ _ hr hck]
    · have hkc : k ≤ c := Nat.le_of_not_lt hck
      rw [if_neg hck,
        project_apply _ _ _ _ _ _ _ _ _ _ _ _ _ _ _ _ _ hr (by omega)]
      refine pixelVal_congr _ _ _ _ _ _ _ _ _ _ _ _ _ _ _ _ _ _ ?_ rfl
      push_cast [Nat.cast_sub hkc]
      ring
  · intro x y x2 y2 xO2 yO2 hx hy
    exact pixelVal_congr _ _ _ _ _ _ _ _ _ _ _ _ _ _ _ _ _ _ hx hy

/-- Witness for C6: a 1-row, 2-column window split at k = 1; the cell (0, 1)
of the full run equals the cell (0, 0) of the second tile. -/
theorem C6_tile_independence_witness :
    project (fun _ _ => (FVal.nan, FVal.nan)) (fun _ _ => 0) 1 1 0 1 0 1
        1 2 0 2 0 1 (fun _ _ => 0) 0 1 =
      if 1 < 1 then
        project (fun _ _ => (FVal.nan, FVal.nan)) (fun _ _ => 0) 1 1 0 1 0 1
          1 1 0 2 0 1 (fun _ _ => 0) 0 1
      else
        project (fun _ _ => (FVal.nan, FVal.nan)) (fun _ _ => 0) 1 1 0 1 0 1
          1 (2 - 1) (0 + (1 : ℤ)) 2 0 1 (fun _ _ => 0) 0 (1 - 1) :=
  (C6_tile_independence (fun _ _ => (FVal.nan, FVal.nan)) (fun _ _ => 0) 1 1 0 1 0 1
    0 2 0 1 1 2 1 (fun _ _ => 0) (fun _ _ => 0) (fun _ _ => 0) 0 1
    (by norm_num) (by norm_num) (by norm_num)).1

/-- Target-shape and placement arguments of one engine invocation, bundled. -/
structure ProjectArgs where
  interp : ℝ → ℝ → ℝ
  srcRows : ℕ
  srcCols : ℕ
  lat1 : ℝ
  lat2 : ℝ
  lng1 : ℝ
  lng2 : ℝ
  tgtRows : ℕ
  tgtCols : ℕ
  xOrigin : ℤ
  xTotal : ℤ
  yOrigin : ℤ
  yTotal : ℤ
  tgt0 : ℕ → ℕ → ℝ

/-- Modelled from the spec: the caller-facing reproject operation resolves
the projection identifier through getProjection before the resampling pass
and refuses to run when no instance is produced.  The dispatch layer that
performs this refusal is not among the source files; only getProjection is. -/
noncomputable def reproject (name : String) (a : ProjectArgs) : Option (ℕ → ℕ → ℝ) :=
  match getProjection name with
  | none => none
  | some ProjKind.webmercator =>
      some (project WebMercatorProjection.reverse a.interp a.srcRows a.srcCols
        a.lat1 a.lat2 a.lng1 a.lng2 a.tgtRows a.tgtCols
        a.xOrigin a.xTotal a.yOrigin a.yTotal a.tgt0)
  | some ProjKind.mollweide =>
      some (project MollweideProjection.reverse a.interp a.srcRows a.srcCols
        a.lat1 a.lat2 a.lng1 a.lng2 a.tgtRows a.tgtCols
        a.xOrigin a.xTotal a.yOrigin a.yTotal a.tgt0)

/-- C7.  getProjection maps epsg:3857 to WebMercator and mollweide to
Mollweide and yields no instance on every other name; reprojection fails
before any resampling work exactly when the identifier is unrecognized. -/
theorem C7_getProjection (s : String) (a : ProjectArgs)
    (h1 : s ≠ "epsg:3857") (h2 : s ≠ "mollweide") :
    getProjection "epsg:3857" = some ProjKind.webmercator ∧
    getProjection "mollweide" = some ProjKind.mollweide ∧
    getProjection s = none ∧
    reproject s a = none ∧
    (∀ (name : String) (b : ProjectArgs),
      reproject name b = none ↔ getProjection name = none) := by
  have hs : getProjection s = none := by simp [getProjection, h1, h2]
  refine ⟨rfl, rfl, hs, ?_, ?_⟩
  · rw [reproject, hs]
  · intro name b
    rcases hg : getProjection name with - | k
    · simp [reproject, hg]
    · cases k <;> simp [reproject, hg]

/-- Witness for C7: the unrecognized name utm yields no instance and a
refused reprojection, while both recognized names resolve. -/
theorem C7_getProjection_witness :
    getProjection "epsg:3857" = some ProjKind.webmercator ∧
    getProjection "mollweide" = some ProjKind.mollweide ∧
    getProjection "utm" = none ∧
    reproject "utm" ⟨fun _ _ => 0, 0, 0, 0, 0, 0, 0, 0, 0, 0, 0, 0, 0, fun _ _ => 0⟩
      = none := by
  have h := C7_getProjection "utm"
    ⟨fun _ _ => 0, 0, 0, 0, 0, 0, 0, 0, 0, 0, 0, 0, 0, fun _ _ => 0⟩
    (by decide) (by decide)
  exact ⟨h.1, h.2.1, h.2.2.1, h.2.2.2.1⟩

/-- C3.  WebMercator reverse projection: for x, y in [0,1) it returns
lng = x*360 - 180 and lat = atan(sinh(PI*(1 - 2y)))*180/PI; at (1/2, 1/2) it
yields (0, 0), at (0, 1/2) the longitude is -180, and the returned latitude
always lies strictly between -90 and 90. -/
theorem C3_webmercator_reverse (x y : ℝ)
    (hx : 0 ≤ x ∧ x < 1) (hy : 0 ≤ y ∧ y < 1) :
    WebMercatorProjection.reverse (FVal.fin x) (FVal.fin y) =
      (FVal.fin (x * 360 - 180),
       FVal.fin (Real.arctan (Real.sinh (PI * (1 - 2 * y))) * 180 / PI)) ∧
    WebMercatorProjection.reverse (FVal.fin (1 / 2)) (FVal.fin (1 / 2)) =
      (FVal.fin 0, FVal.fin 0) ∧
    (WebMercatorProjection.reverse (FVal.fin 0) (FVal.fin (1 / 2))).1 = FVal.fin (-180) ∧
    (∀ lat : ℝ,
      (WebMercatorProjection.reverse (FVal.fin x) (FVal.fin y)).2 = FVal.fin lat →
      -90 < lat ∧ lat < 90) := by
  have hpi : PI ≠ 0 := by rw [PI]; exact Real.pi_ne_zero
  have heval : ∀ a b : ℝ,
      WebMercatorProjection.reverse (FVal.fin a) (FVal.fin b) =
        (FVal.fin (a * 360 - 180),
         FVal.fin (Real.arctan (Real.sinh (PI * (1 - 2 * b))) * 180 / PI)) := by
    intro a b
    simp only [WebMercatorProjection.reverse, FVal.mul_fin_fin, FVal.sub_fin_fin,
      FVal.sinhF_fin, FVal.atanF_fin]
    rw [FVal.div_fin_fin _ hpi]
  refine ⟨heval x y, ?_, ?_, ?_⟩
  · rw [heval]
    norm_num [Real.sinh_zero, Real.arctan_zero]
  · rw [heval]
    norm_num
  · intro lat hlat
    rw [heval x y] at hlat
    injection hlat with hl
    rw [PI] at hl
    subst hl
    constructor
    · rw [lt_div_iff Real.pi_pos]
      have := Real.neg_pi_div_two_lt_arctan (Real.sinh (Real.pi * (1 - 2 * y)))
      linarith
    · rw [div_lt_iff Real.pi_pos]
      have := Real.arctan_lt_pi_div_two (Real.sinh (Real.pi * (1 - 2 * y)))
      linarith

/-- Witness for C3 at the center point (1/2, 1/2). -/
theorem C3_webmercator_reverse_witness :
    WebMercatorProjection.reverse (FVal.fin (1 / 2)) (FVal.fin (1 / 2)) =
      (FVal.fin 0, FVal.fin 0) :=
  (C3_webmercator_reverse (1 / 2) (1 / 2)
    ⟨by norm_num, by norm_num⟩ ⟨by norm_num, by norm_num⟩).2.1

/-- Subtracting a non-finite value from a finite one never gives a finite value. -/
lemma not_isFin_sub_fin {v : FVal} (h : ¬ v.isFin) (a : ℝ) :
    ¬ (FVal.sub (FVal.fin a) v).isFin := by
  cases v with
  | fin b => exact absurd (FVal.isFin_fin b) h
  | pinf => simp [FVal.sub, FVal.isFin]
  | ninf => simp [FVal.sub, FVal.isFin]
  | nan => simp [FVal.sub, FVal.isFin]

/-- First normalized source coordinate, written out. -/
lemma srcNorms_fst (reverse : FVal → FVal → FVal × FVal)
    (lat1 lat2 lng1 lng2 : ℝ) (xO xT yO yT : ℤ) (x y : ℕ) :
    (srcNorms reverse lat1 lat2 lng1 lng2 xO xT yO yT x y).1 =
      FVal.div
        (FVal.sub
          (reverse (FVal.div (FVal.fin ((x : ℝ) + (xO : ℝ))) (FVal.fin (xT : ℝ)))
            (FVal.div (FVal.fin ((y : ℝ) + (yO : ℝ))) (FVal.fin (yT : ℝ)))).1
          (FVal.fin lng1))
        (FVal.fin (lng2 - lng1)) := rfl

/-- Second normalized source coordinate, written out. -/
lemma srcNorms_snd (reverse : FVal → FVal → FVal × FVal)
    (lat1 lat2 lng1 lng2 : ℝ) (xO xT yO yT : ℤ) (x y : ℕ) :
    (srcNorms reverse lat1 lat2 lng1 lng2 xO xT yO yT x y).2 =
      FVal.sub (FVal.fin 1)
        (FVal.div
          (FVal.sub
            (reverse (FVal.div (FVal.fin ((x : ℝ) + (xO : ℝ))) (FVal.fin (xT : ℝ)))
              (FVal.div (FVal.fin ((y : ℝ) + (yO : ℝ))) (FVal.fin (yT : ℝ)))).2
            (FVal.fin lat1))
          (FVal.fin (lat2 - lat1))) := rfl

/-- C9.  With a degenerate bounding box (lng2 = lng1 or lat2 = lat1) the
affected normalized source coordinate is never finite, the bounds test fails
at every target pixel, the sentinel is written, and the result does not
depend on the interpolator, so the source grid is never read. -/
theorem C9_degenerate_bbox (reverse : FVal → FVal → FVal × FVal)
    (interp interp2 : ℝ → ℝ → ℝ) (srcRows srcCols : ℕ)
    (lat1 lat2 lng1 lng2 : ℝ) (xO xT yO yT : ℤ) (x y : ℕ)
    (h : lng2 = lng1 ∨ lat2 = lat1) :
    (¬ (srcNorms reverse lat1 lat2 lng1 lng2 xO xT yO yT x y).1.isFin ∨
     ¬ (srcNorms reverse lat1 lat2 lng1 lng2 xO xT yO yT x y).2.isFin) ∧
    ¬ inBounds (srcNorms reverse lat1 lat2 lng1 lng2 xO xT yO yT x y).1
      (srcNorms reverse lat1 lat2 lng1 lng2 xO xT yO yT x y).2 ∧
    pixelVal reverse interp srcRows srcCols lat1 lat2 lng1 lng2 xO xT yO yT x y
      = sentinel ∧
    pixelVal reverse interp srcRows srcCols lat1 lat2 lng1 lng2 xO xT yO yT x y =
      pixelVal reverse interp2 srcRows srcCols lat1 lat2 lng1 lng2 xO xT yO yT x y := by
  have hnb : ¬ inBounds (srcNorms reverse lat1 lat2 lng1 lng2 xO xT yO yT x y).1
      (srcNorms reverse lat1 lat2 lng1 lng2 xO xT yO yT x y).2 ∧
      (¬ (srcNorms reverse lat1 lat2 lng1 lng2 xO xT yO yT x y).1.isFin ∨
       ¬ (srcNorms reverse lat1 lat2 lng1 lng2 xO xT yO yT x y).2.isFin) := by
    rcases h with h | h
    · have hfst : ¬ (srcNorms reverse lat1 lat2 lng1 lng2 xO xT yO yT x y).1.isFin := by
        rw [srcNorms_fst, show lng2 - lng1 = 0 by rw [h, sub_self]]
        exact FVal.not_isFin_div_fin_zero _
      exact ⟨not_inBounds_of_left hfst _, Or.inl hfst⟩
    · have hsnd : ¬ (srcNorms reverse lat1 lat2 lng1 lng2 xO xT yO yT x y).2.isFin := by
        rw [srcNorms_snd, show lat2 - lat1 = 0 by rw [h, sub_self]]
        exact not_isFin_sub_fin (FVal.not_isFin_div_fin_zero _) 1
      exact ⟨not_inBounds_of_right hsnd _, Or.inr hsnd⟩
  have hsent : pixelVal reverse interp srcRows srcCols lat1 lat2 lng1 lng2
      xO xT yO yT x y = sentinel := by
    rw [pixelVal, if_neg hnb.1]
  have hsent2 : pixelVal reverse interp2 srcRows srcCols lat1 lat2 lng1 lng2
      xO xT yO yT x y = sentinel := by
    rw [pixelVal, if_neg hnb.1]
  exact ⟨hnb.2, hnb.1, hsent, hsent.trans hsent2.symm⟩

/-- Witness for C9: a degenerate longitude range (5 to 5) forces the
sentinel even though the projection returns a finite position. -/
theorem C9_degenerate_bbox_witness :
    pixelVal (fun _ _ => (FVal.fin 0, FVal.fin 0)) (fun _ _ => 1) 1 1
      0 1 5 5 0 1 0 1 0 0 = sentinel :=
  (C9_degenerate_bbox (fun _ _ => (FVal.fin 0, FVal.fin 0)) (fun _ _ => 1)
    (fun _ _ => 2) 1 1 0 1 5 5 0 1 0 1 0 0 (Or.inl rfl)).2.2.1

/-- Mollweide reverse projection yields NaN in both components whenever the
rescaled y argument of asin has magnitude above one. -/
lemma mollweide_reverse_nan (xv : FVal) (v : ℝ) (h : 1 < |4 * v - 2|) :
    MollweideProjection.reverse xv (FVal.fin v) = (FVal.nan, FVal.nan) := by
  have hs2 : Real.sqrt 2 ≠ 0 := ne_of_gt (Real.sqrt_pos.mpr (by norm_num))
  have harg : (v * (4 * Real.sqrt 2) - 2 * Real.sqrt 2) / Real.sqrt 2 = 4 * v - 2 := by
    field_simp
    ring
  simp only [MollweideProjection.reverse, FVal.mul_fin_fin, FVal.sub_fin_fin]
  rw [FVal.div_fin_fin _ hs2, harg, FVal.asinF_fin_of_gt h]
  simp

/-- C10.  With the Mollweide projection, every target pixel whose normalized
global y coordinate lies outside [1/4, 3/4] gets NaN for both normalized
source coordinates, hence the sentinel value, independently of the
interpolator: the source grid is never read there. -/
theorem C10_mollweide_outside_band (interp interp2 : ℝ → ℝ → ℝ)
    (srcRows srcCols : ℕ) (lat1 lat2 lng1 lng2 : ℝ) (xO xT yO yT : ℤ) (x y : ℕ)
    (hyT : (yT : ℝ) ≠ 0)
    (h : ((y : ℝ) + (yO : ℝ)) / (yT : ℝ) < 1 / 4 ∨
      3 / 4 < ((y : ℝ) + (yO : ℝ)) / (yT : ℝ)) :
    srcNorms MollweideProjection.reverse lat1 lat2 lng1 lng2 xO xT yO yT x y
      = (FVal.nan, FVal.nan) ∧
    pixelVal MollweideProjection.reverse interp srcRows srcCols
      lat1 lat2 lng1 lng2 xO xT yO yT x y = sentinel ∧
    pixelVal MollweideProjection.reverse interp srcRows srcCols
        lat1 lat2 lng1 lng2 xO xT yO yT x y =
      pixelVal MollweideProjection.reverse interp2 srcRows srcCols
        lat1 lat2 lng1 lng2 xO xT yO yT x y := by
  have habs : 1 < |4 * (((y : ℝ) + (yO : ℝ)) / (yT : ℝ)) - 2| := by
    rw [lt_abs]
    rcases h with h | h
    · right; linarith
    · left; linarith
  have hsn : srcNorms MollweideProjection.reverse lat1 lat2 lng1 lng2
      xO xT yO yT x y = (FVal.nan, FVal.nan) := by
    rw [srcNorms, FVal.div_fin_fin ((y : ℝ) + (yO : ℝ)) hyT,
      mollweide_reverse_nan _ _ habs]
    simp
  have hsent : pixelVal MollweideProjection.reverse interp srcRows srcCols
      lat1 lat2 lng1 lng2 xO xT yO yT x y = sentinel := by
    rw [pixelVal, hsn]
    simp
  have hsent2 : pixelVal MollweideProjection.reverse interp2 srcRows srcCols
      lat1 lat2 lng1 lng2 xO xT yO yT x y = sentinel := by
    rw [pixelVal, hsn]
    simp
  exact ⟨hsn, hsent, hsent.trans hsent2.symm⟩

/-- Witness for C10: the top row of a one-pixel-tall global image has
normalized y = 0, outside the band, and receives the sentinel. -/
theorem C10_mollweide_outside_band_witness :
    pixelVal MollweideProjection.reverse (fun _ _ => 1) 1 1
      0 1 0 1 0 1 0 1 0 0 = sentinel :=
  (C10_mollweide_outside_band (fun _ _ => 1) (fun _ _ => 2) 1 1
    0 1 0 1 0 1 0 1 0 0 (by norm_num) (Or.inl (by norm_num))).2.1

/-- The sine of a nonnegative real is at most the real itself. -/
lemma sin_le_self {u : ℝ} (h : 0 ≤ u) : Real.sin u ≤ u := by
  rcases eq_or_lt_of_le h with h0 | h0
  · rw [← h0]
    simp
  · exact le_of_lt (Real.sin_lt h0)

/-- Upper bound used by the Mollweide inverse: 2t + sin 2t stays below pi on
the left half of its domain. -/
lemma two_mul_add_sin_le {t : ℝ} (h : t ≤ Real.pi / 2) :
    2 * t + Real.sin (2 * t) ≤ Real.pi := by
  have h1 : 0 ≤ Real.pi - 2 * t := by linarith
  have h2 : Real.sin (2 * t) = Real.sin (Real.pi - 2 * t) := (Real.sin_pi_sub _).symm
  have h3 := sin_le_self h1
  rw [h2]
  linarith

/-- C4.  Mollweide reverse projection on a finite input with the rescaled y
inside the open band: it rescales x and y from [0,1) into plane coordinates
spanning the interval from -2*sqrt 2 to 2*sqrt 2, takes
theta = asin(y1/sqrt 2), a phi satisfying 2*theta + sin(2*theta) = PI*sin phi,
lambda = 0 + PI*x1/(2*sqrt 2*cos theta), and returns lng = lambda*180/PI and
lat = phi*(-180)/PI, the latitude sign being inverted relative to the plane
y-axis. -/
theorem C4_mollweide_reverse (x y : ℝ) (hx : 0 ≤ x ∧ x < 1)
    (hy : |4 * y - 2| < 1) :
    ∃ θ φ lam lng lat : ℝ,
      MollweideProjection.reverse (FVal.fin x) (FVal.fin y) =
        (FVal.fin lng, FVal.fin lat) ∧
      θ = Real.arcsin ((y * (4 * Real.sqrt 2) - 2 * Real.sqrt 2) / Real.sqrt 2) ∧
      2 * θ + Real.sin (2 * θ) = PI * Real.sin φ ∧
      lam = 0 + PI * (x * (4 * Real.sqrt 2) - 2 * Real.sqrt 2) /
        (2 * Real.sqrt 2 * Real.cos θ) ∧
      lng = lam * 180 / PI ∧
      lat = φ * (-180) / PI ∧
      -(2 * Real.sqrt 2) ≤ x * (4 * Real.sqrt 2) - 2 * Real.sqrt 2 ∧
      x * (4 * Real.sqrt 2) - 2 * Real.sqrt 2 < 2 * Real.sqrt 2 := by
  have hs2 : (0 : ℝ) < Real.sqrt 2 := Real.sqrt_pos.mpr (by norm_num)
  have hs2' : Real.sqrt 2 ≠ 0 := ne_of_gt hs2
  have hpi : PI ≠ 0 := by rw [PI]; exact Real.pi_ne_zero
  have harg : (y * (4 * Real.sqrt 2) - 2 * Real.sqrt 2) / Real.sqrt 2 = 4 * y - 2 := by
    field_simp
    ring
  have habs : |4 * y - 2| ≤ 1 := le_of_lt hy
  have habs2 := abs_lt.mp hy
  have hcos : 0 < Real.cos (Real.arcsin (4 * y - 2)) := by
    rw [Real.cos_arcsin]
    exact Real.sqrt_pos.mpr (by nlinarith [habs2.1, habs2.2])
  have hden : 2 * Real.sqrt 2 * Real.cos (Real.arcsin (4 * y - 2)) ≠ 0 :=
    ne_of_gt (mul_pos (by positivity) hcos)
  have hθle : Real.arcsin (4 * y - 2) ≤ Real.pi / 2 := Real.arcsin_le_pi_div_two _
  have hθge : -(Real.pi / 2) ≤ Real.arcsin (4 * y - 2) := Real.neg_pi_div_two_le_arcsin _
  have hup : 2 * Real.arcsin (4 * y - 2) + Real.sin (2 * Real.arcsin (4 * y - 2))
      ≤ Real.pi := two_mul_add_sin_le hθle
  have hlo : -Real.pi ≤ 2 * Real.arcsin (4 * y - 2) +
      Real.sin (2 * Real.arcsin (4 * y - 2)) := by
    have h1 : -(Real.arcsin (4 * y - 2)) ≤ Real.pi / 2 := by linarith
    have h2 := two_mul_add_sin_le h1
    have h3 : Real.sin (2 * -(Real.arcsin (4 * y - 2))) =
        -Real.sin (2 * Real.arcsin (4 * y - 2)) := by
      rw [show (2 : ℝ) * -(Real.arcsin (4 * y - 2)) =
        -(2 * Real.arcsin (4 * y - 2)) by ring, Real.sin_neg]
    rw [h3] at h2
    linarith
  have hq : |(2 * Real.arcsin (4 * y - 2) + Real.sin (2 * Real.arcsin (4 * y - 2)))
      / PI| ≤ 1 := by
    rw [PI, abs_div, abs_of_pos Real.pi_pos, div_le_one Real.pi_pos, abs_le]
    exact ⟨hlo, hup⟩
  have hphieq : 2 * Real.arcsin (4 * y - 2) + Real.sin (2 * Real.arcsin (4 * y - 2)) =
      PI * Real.sin (Real.arcsin ((2 * Real.arcsin (4 * y - 2) +
        Real.sin (2 * Real.arcsin (4 * y - 2))) / PI)) := by
    have hb := abs_le.mp hq
    rw [Real.sin_arcsin hb.1 hb.2, PI]
    field_simp
  have hrev : MollweideProjection.reverse (FVal.fin x) (FVal.fin y) =
      (FVal.fin ((0 + PI * (x * (4 * Real.sqrt 2) - 2 * Real.sqrt 2) /
          (2 * Real.sqrt 2 * Real.cos (Real.arcsin (4 * y - 2)))) * 180 / PI),
       FVal.fin (Real.arcsin ((2 * Real.arcsin (4 * y - 2) +
          Real.sin (2 * Real.arcsin (4 * y - 2))) / PI) * (-180) / PI)) := by
    simp only [MollweideProjection.reverse, FVal.mul_fin_fin, FVal.sub_fin_fin]
    rw [FVal.div_fin_fin _ hs2', harg, FVal.asinF_fin_of_le habs]
    simp only [FVal.cosF_fin, FVal.sinF_fin, FVal.mul_fin_fin, FVal.add_fin_fin]
    rw [FVal.div_fin_fin _ hden, FVal.div_fin_fin _ hpi, FVal.asinF_fin_of_le hq]
    simp only [FVal.add_fin_fin, FVal.mul_fin_fin]
    rw [FVal.div_fin_fin _ hpi, FVal.div_fin_fin _ hpi]
  have hb1 : -(2 * Real.sqrt 2) ≤ x * (4 * Real.sqrt 2) - 2 * Real.sqrt 2 := by
    nlinarith [hx.1, hs2]
  have hb2 : x * (4 * Real.sqrt 2) - 2 * Real.sqrt 2 < 2 * Real.sqrt 2 := by
    nlinarith [hx.2, hs2]
  exact ⟨Real.arcsin (4 * y - 2),
    Real.arcsin ((2 * Real.arcsin (4 * y - 2) +
      Real.sin (2 * Real.arcsin (4 * y - 2))) / PI),
    0 + PI * (x * (4 * Real.sqrt 2) - 2 * Real.sqrt 2) /
      (2 * Real.sqrt 2 * Real.cos (Real.arcsin (4 * y - 2))),
    (0 + PI * (x * (4 * Real.sqrt 2) - 2 * Real.sqrt 2) /
      (2 * Real.sqrt 2 * Real.cos (Real.arcsin (4 * y - 2)))) * 180 / PI,
    Real.arcsin ((2 * Real.arcsin (4 * y - 2) +
      Real.sin (2 * Real.arcsin (4 * y - 2))) / PI) * (-180) / PI,
    hrev, by rw [harg], hphieq, rfl, rfl, rfl, hb1, hb2⟩

/-- Witness for C4 at the center point (1/2, 1/2). -/
theorem C4_mollweide_reverse_witness :
    ∃ θ φ lam lng lat : ℝ,
      MollweideProjection.reverse (FVal.fin (1 / 2)) (FVal.fin (1 / 2)) =
        (FVal.fin lng, FVal.fin lat) ∧
      θ = Real.arcsin (((1 / 2) * (4 * Real.sqrt 2) - 2 * Real.sqrt 2) / Real.sqrt 2) ∧
      2 * θ + Real.sin (2 * θ) = PI * Real.sin φ ∧
      lam = 0 + PI * ((1 / 2) * (4 * Real.sqrt 2) - 2 * Real.sqrt 2) /
        (2 * Real.sqrt 2 * Real.cos θ) ∧
      lng = lam * 180 / PI ∧
      lat = φ * (-180) / PI ∧
      -(2 * Real.sqrt 2) ≤ (1 / 2) * (4 * Real.sqrt 2) - 2 * Real.sqrt 2 ∧
      (1 / 2) * (4 * Real.sqrt 2) - 2 * Real.sqrt 2 < 2 * Real.sqrt 2 :=
  C4_mollweide_reverse (1 / 2) (1 / 2) ⟨by norm_num, by norm_num⟩ (by norm_num)

/-- Modelled from the spec: Bilinear getValue (resample_algos.hpp is not
among the source files).  The weighted bilinear combination of the four
neighbouring samples around the fractional coordinate (x, y), with neighbour
indices clamped to the last valid row and column. -/
noncomputable def Bilinear.getValue (g : ℕ → ℕ → ℝ) (rows cols : ℕ) (x y : ℝ) : ℝ :=
  let x0 : ℤ := ⌊x⌋
  let y0 : ℤ := ⌊y⌋
  let fx : ℝ := x - (x0 : ℝ)
  let fy : ℝ := y - (y0 : ℝ)
  let x0n : ℕ := min x0.toNat (cols - 1)
  let x1n : ℕ := min (x0 + 1).toNat (cols - 1)
  let y0n : ℕ := min y0.toNat (rows - 1)
  let y1n : ℕ := min (y0 + 1).toNat (rows - 1)
  (1 - fx) * (1 - fy) * g y0n x0n + fx * (1 - fy) * g y0n x1n +
    (1 - fx) * fy * g y1n x0n + fx * fy * g y1n x1n

/-- Modelled from the spec: project_webmercator_files from project.cpp up to
the storage layer, together with the project_webmercator template of
project_webmercator.hpp (not among the source files): map the two buffers as
grids and run the engine with the WebMercator projection, double elements and
bilinear interpolation. -/
noncomputable def project_webmercator_files (fromGrid : ℕ → ℕ → ℝ)
    (fromRows fromCols : ℕ) (lng1 lng2 lat1 lat2 : ℤ)
    (toGrid : ℕ → ℕ → ℝ) (toRows toCols : ℕ)
    (x y totalWidth totalHeight : ℤ) : ℕ → ℕ → ℝ :=
  project WebMercatorProjection.reverse (Bilinear.getValue fromGrid fromRows fromCols)
    fromRows fromCols (lat1 : ℝ) (lat2 : ℝ) (lng1 : ℝ) (lng2 : ℝ)
    toRows toCols x totalWidth y totalHeight toGrid

/-- project_webmercator from project.cpp: the exported operation.  The
dataFormat and method string parameters are received and never used (the
source marks them TODO); the call always instantiates the double element
type and the files-level routine above. -/
noncomputable def project_webmercator (fromGrid : ℕ → ℕ → ℝ)
    (fromRows fromCols : ℕ) (lng1 lng2 lat1 lat2 : ℤ)
    (toGrid : ℕ → ℕ → ℝ) (toRows toCols : ℕ)
    (x y totalWidth totalHeight : ℤ)
    (dataFormat method : String) : ℕ → ℕ → ℝ :=
  project_webmercator_files fromGrid fromRows fromCols lng1 lng2 lat1 lat2
    toGrid toRows toCols x y totalWidth totalHeight

/-- C8.  project_webmercator ignores its dataFormat and method parameters:
any two choices of those strings give the identical computation, which is
the engine pass with the WebMercator projection, double elements and
bilinear interpolation. -/
theorem C8_ignores_format_method (fromGrid : ℕ → ℕ → ℝ)
    (fromRows fromCols : ℕ) (lng1 lng2 lat1 lat2 : ℤ)
    (toGrid : ℕ → ℕ → ℝ) (toRows toCols : ℕ)
    (x y totalWidth totalHeight : ℤ) (df m df2 m2 : String) :
    project_webmercator fromGrid fromRows fromCols lng1 lng2 lat1 lat2
        toGrid toRows toCols x y totalWidth totalHeight df m =
      project_webmercator fromGrid fromRows fromCols lng1 lng2 lat1 lat2
        toGrid toRows toCols x y totalWidth totalHeight df2 m2 ∧
    project_webmercator fromGrid fromRows fromCols lng1 lng2 lat1 lat2
        toGrid toRows toCols x y totalWidth totalHeight df m =
      project WebMercatorProjection.reverse
        (Bilinear.getValue fromGrid fromRows fromCols)
        fromRows fromCols (lat1 : ℝ) (lat2 : ℝ) (lng1 : ℝ) (lng2 : ℝ)
        toRows toCols x totalWidth y totalHeight toGrid :=
  ⟨rfl, rfl⟩
